import Mathlib

/-!
Shallow embedding of the heatmap-scraper pipeline (`src/scraper.py`):
the change parser (`parse_change_value`), the color policy
(`get_color_from_change`), the record normalizer and report renderer
(`generate_html_output`) and the tabular exporter (`save_to_csv`).
Python floats are modelled as exact rationals (`ℚ`); Python `None` as
`Option.none`; the filesystem write in `generate_html_output` as an
explicit `writeOk : Bool` environment flag.
-/

/-- A raw record as handed to `generate_html_output` / `save_to_csv`:
a dict whose keys may be absent, hence `Option` fields.
Keys: `symbol`, `name`, `change`, `price`, `color`, `area`. -/
structure RawRecord where
  symbol : Option String
  name : Option String
  change : Option String
  price : Option String
  color : Option String
  area : Option ℚ
deriving DecidableEq

/- ### Change parser: `parse_change_value` (scraper.py lines 136-142)

Python code:
  if not change_str: return 0.0
  match = re.search(r'([+-]?\d+\.?\d*)', change_str.replace('%', ''))
  return float(match.group(1)) if match else 0.0

The regex search is embedded as `searchNum`: scan left to right for the
first position where `[+-]?\d+\.?\d*` matches (greedy, with the usual
backtracking: a sign not followed by a digit does not start a match). -/

/-- The digit-run / remainder split used by `\d+` and `\d*` (greedy). -/
def takeDigits (l : List Char) : List Char × List Char :=
  match l with
  | [] => ([], [])
  | c :: cs =>
    if c.isDigit then
      let (ds, rest) := takeDigits cs
      (c :: ds, rest)
    else ([], c :: cs)

/-- A successful match of `[+-]?\d+\.?\d*`: sign, integer digits,
fractional digits (empty when no `.digits` part was consumed). -/
structure NumMatch where
  neg : Bool
  intPart : List Char
  fracPart : List Char
deriving DecidableEq

/-- Match `\d+\.?\d*` at the current position (after an optional sign
was consumed): fails unless the head is a digit; greedily takes the
digit run, an optional dot, and the following digit run. -/
def matchDigits (l : List Char) : Option (List Char × List Char) :=
  match takeDigits l with
  | ([], _) => none
  | (ip, rest) =>
    match rest with
    | '.' :: cs => some (ip, (takeDigits cs).1)
    | _ => some (ip, [])

/-- Try to match `[+-]?\d+\.?\d*` starting exactly at the head of `l`.
A `+`/`-` head is a sign only if digits follow (regex backtracking). -/
def matchNumAt (l : List Char) : Option NumMatch :=
  match l with
  | [] => none
  | c :: cs =>
    if c = '+' then (matchDigits cs).map (fun m => ⟨false, m.1, m.2⟩)
    else if c = '-' then (matchDigits cs).map (fun m => ⟨true, m.1, m.2⟩)
    else (matchDigits (c :: cs)).map (fun m => ⟨false, m.1, m.2⟩)

/-- `re.search`: first position (left to right) where the pattern matches. -/
def searchNum (l : List Char) : Option NumMatch :=
  match l with
  | [] => none
  | c :: cs =>
    match matchNumAt (c :: cs) with
    | some m => some m
    | none => searchNum cs

/-- Value of a digit string read in base 10. -/
def digitsToNat (l : List Char) : Nat :=
  l.foldl (fun a c => 10 * a + (c.toNat - '0'.toNat)) 0

/-- `float(match.group(1))`: the exact rational value of the matched text. -/
def numValue (m : NumMatch) : ℚ :=
  (if m.neg then -1 else 1) *
    ((digitsToNat m.intPart : ℚ) + (digitsToNat m.fracPart : ℚ) / 10 ^ m.fracPart.length)

/-- `change_str.replace('%', '')`: drop every percent sign. -/
def stripPercent (s : String) : String :=
  ⟨s.data.filter (fun c => c ≠ '%')⟩

/-- `parse_change_value` (scraper.py lines 136-142). `none` models the
Python `None` argument; `if not change_str` is true exactly on `None`
and the empty string. -/
def parse_change_value (change_str : Option String) : ℚ :=
  match change_str with
  | none => 0
  | some s =>
    if s = "" then 0
    else
      match searchNum (stripPercent s).data with
      | some m => numValue m
      | none => 0

/- ### Color policy: `get_color_from_change` (scraper.py lines 144-155)

The Python function returns an `rgba(r, g, b, a)` string; the embedding
returns the `(r, g, b)` triple and the alpha component. -/

/-- `get_color_from_change` (scraper.py lines 144-155). -/
def get_color_from_change (change_value : ℚ) : (ℕ × ℕ × ℕ) × ℚ :=
  if change_value > 0 then
    let intensity := min (|change_value| * 10) 100
    ((34, 197, 94), 3/10 + intensity / 200)
  else if change_value < 0 then
    let intensity := min (|change_value| * 10) 100
    ((239, 68, 68), 3/10 + intensity / 200)
  else
    ((156, 163, 175), 3/10)

/-- The per-tile classification computed in `generate_html_output`
(scraper.py line 394). -/
def change_class (change_value : ℚ) : String :=
  if change_value > 0 then "positive"
  else if change_value < 0 then "negative"
  else "neutral"

/-- The per-tile accent color computed in `generate_html_output`
(scraper.py line 395). -/
def accent_color (change_value : ℚ) : String :=
  if change_value > 0 then "#22c55e"
  else if change_value < 0 then "#ef4444"
  else "#6b7280"

/- ### Record normalizer (scraper.py lines 163-179) -/

/-- One element of `processed_data` (scraper.py lines 167-175). -/
structure ProcessedRecord where
  symbol : String
  name : String
  change : String
  change_value : ℚ
  price : String
  area : ℚ
  color : (ℕ × ℕ × ℕ) × ℚ
deriving DecidableEq

/-- The per-item normalization in the loop of `generate_html_output`
(scraper.py lines 165-176): `item.get(key, default)` is `Option.getD`. -/
def process_item (item : RawRecord) : ProcessedRecord :=
  let change_value := parse_change_value (some (item.change.getD "0%"))
  { symbol := item.symbol.getD "N/A"
    name := item.name.getD "N/A"
    change := item.change.getD "0%"
    change_value := change_value
    price := item.price.getD "N/A"
    area := item.area.getD 100
    color := get_color_from_change change_value }

/-- The comparison realizing `processed_data.sort(key=lambda x: x['area'],
reverse=True)`: a stable descending sort on `area`. -/
def areaDescLe (a b : ProcessedRecord) : Bool :=
  decide (b.area ≤ a.area)

/-- The whole normalizer (scraper.py lines 163-179): build
`processed_data` from `data`, then stable-sort it by `area` descending
(`List.mergeSort` with a left-biased total comparison is stable, like
Python's `list.sort`). -/
def process_records (data : List RawRecord) : List ProcessedRecord :=
  (data.map process_item).mergeSort areaDescLe

/- ### Report renderer: `generate_html_output` (scraper.py lines 157-464) -/

/-- One rendered tile (scraper.py lines 393-406). The displayed price is
`"$" ++ price`. -/
structure Tile where
  symbol : String
  name : String
  change : String
  tile_change_class : String
  tile_accent_color : String
  tile_color : (ℕ × ℕ × ℕ) × ℚ
  price : String
deriving DecidableEq

/-- Build one tile from a processed record (scraper.py lines 393-406). -/
def make_tile (stock : ProcessedRecord) : Tile :=
  { symbol := stock.symbol
    name := stock.name
    change := stock.change
    tile_change_class := change_class stock.change_value
    tile_accent_color := accent_color stock.change_value
    tile_color := stock.color
    price := "$" ++ stock.price }

/-- The data content of the rendered HTML document: the four aggregate
counts of the stats block (scraper.py lines 370-387) and the tile list
(lines 392-406). -/
structure HtmlDoc where
  total : ℕ
  gainers : ℕ
  losers : ℕ
  unchanged : ℕ
  tiles : List Tile
deriving DecidableEq

/-- The document `generate_html_output` renders for non-empty `data`:
counts are the list-comprehension lengths of scraper.py lines 372-384,
tiles the loop of lines 392-406, all over the sorted `processed_data`. -/
def build_doc (data : List RawRecord) : HtmlDoc :=
  let processed_data := process_records data
  { total := processed_data.length
    gainers := processed_data.countP (fun x => decide (x.change_value > 0))
    losers := processed_data.countP (fun x => decide (x.change_value < 0))
    unchanged := processed_data.countP (fun x => decide (x.change_value = 0))
    tiles := processed_data.map make_tile }

/-- The observable outcome of `generate_html_output`: its Python return
value (`filename` or `None`) and what was persisted at `filename`
(`none` when nothing was written). -/
structure RenderOutcome where
  ret : Option String
  written : Option HtmlDoc
deriving DecidableEq

/-- `generate_html_output` (scraper.py lines 157-464). For empty `data`
it prints and returns immediately (lines 159-161), writing nothing.
Otherwise it builds the document; the `try`/`except` around the file
write (lines 457-464) is modelled by `writeOk`: on success the function
returns `filename`, on an I/O failure it logs and returns `None`. -/
def generate_html_output (data : List RawRecord) (filename : String)
    (writeOk : Bool) : RenderOutcome :=
  if data.isEmpty then { ret := none, written := none }
  else if writeOk then { ret := some filename, written := some (build_doc data) }
  else { ret := none, written := none }

/- ### Tabular exporter: `save_to_csv` (scraper.py lines 465-472) -/

/-- Outcome of `save_to_csv`: either one CSV file was written holding
one row per record, or nothing was exported (`"No data to save"`). -/
inductive CsvOutcome where
  | saved (filename : String) (rows : List RawRecord)
  | noData
deriving DecidableEq

/-- `save_to_csv` (scraper.py lines 465-472): `if data:` write the
DataFrame, `else` report that there is no data to save. -/
def save_to_csv (data : List RawRecord) (filename : String) : CsvOutcome :=
  if !data.isEmpty then .saved filename data
  else .noData

/- ### Heap-level model of `generate_html_output`'s list mutations

Python lists are mutable objects; the body of `generate_html_output`
touches exactly two list objects: the caller's `data` (argument, only
ever read) and the local `processed_data` (created at line 164, extended
by `append` at line 176, sorted in place at line 179). The heap model
carries the contents of both objects and each statement updates the
cell it mutates. -/

/-- Contents of the two list objects visible in `generate_html_output`. -/
structure ListHeap where
  dataCell : List RawRecord
  processedCell : List ProcessedRecord
deriving DecidableEq

/-- Statement-by-statement heap model of `generate_html_output`
(scraper.py lines 157-464): early return on empty `data`; otherwise
`processed_data = []`, the append loop, then the in-place sort — all of
which write only the `processed_data` cell — and the final return value. -/
def generate_html_output_heap (h : ListHeap) (filename : String)
    (writeOk : Bool) : ListHeap × Option String :=
  if h.dataCell.isEmpty then (h, none)
  else
    let h1 := { h with processedCell := [] }
    let h2 := { h1 with
      processedCell := h1.dataCell.foldl (fun acc item => acc ++ [process_item item]) h1.processedCell }
    let h3 := { h2 with processedCell := h2.processedCell.mergeSort areaDescLe }
    (h3, if writeOk then some filename else none)

/- ### Helper lemmas -/

/-- The append loop `for item in data: processed_data.append(...)` builds
`acc ++ data.map process_item`. -/
theorem foldl_append_eq_map (l : List RawRecord) (acc : List ProcessedRecord) :
    l.foldl (fun acc item => acc ++ [process_item item]) acc = acc ++ l.map process_item := by
  induction l generalizing acc with
  | nil => simp
  | cons a t ih => simp [List.foldl_cons, ih]

/-- `areaDescLe` is transitive. -/
theorem areaDescLe_trans (a b c : ProcessedRecord) :
    areaDescLe a b → areaDescLe b c → areaDescLe a c := by
  simp only [areaDescLe, decide_eq_true_eq]
  exact fun hab hbc => le_trans hbc hab

/-- `areaDescLe` is total. -/
theorem areaDescLe_total (a b : ProcessedRecord) :
    areaDescLe a b || areaDescLe b a := by
  simp only [areaDescLe, Bool.or_eq_true, decide_eq_true_eq]
  exact le_total b.area a.area

/- ### C1, C2, C8, C9, C10 theorems -/

/-- C1 (code behavior at the failing input): for an empty input sequence
`generate_html_output` takes the early `return` at scraper.py lines
159-161: it writes no document at all and returns `None`, for any
filename and any filesystem behavior — contradicting the spec's required
empty-document degenerate case. -/
theorem generate_html_output_empty_writes_nothing (filename : String) (writeOk : Bool) :
    generate_html_output [] filename writeOk = { ret := none, written := none } := rfl

/-- C2 (counterexample): a record whose `name` key is absent but whose
`symbol` is `"AAA"` is normalized with `name = "N/A"`, not with the
symbol: `item.get('name', 'N/A')` never consults `symbol`. -/
theorem process_item_name_no_symbol_fallback :
    (process_item { symbol := some "AAA", name := none, change := none,
                    price := none, color := none, area := none }).name = "N/A" ∧
      ("N/A" : String) ≠ "AAA" := ⟨rfl, by decide⟩

/-- C2 (amended): the normalizer fills each absent field with its
documented default — `symbol` with `"N/A"`, `name` directly with `"N/A"`
(no fallback to the symbol), `change` with `"0%"`, `price` with `"N/A"`,
`area` with `100` — and copies each present field through unchanged. -/
theorem process_item_defaults :
    ∀ item : RawRecord,
      ((item.symbol = none → (process_item item).symbol = "N/A") ∧
        (∀ s, item.symbol = some s → (process_item item).symbol = s)) ∧
      ((item.name = none → (process_item item).name = "N/A") ∧
        (∀ s, item.name = some s → (process_item item).name = s)) ∧
      ((item.change = none → (process_item item).change = "0%") ∧
        (∀ s, item.change = some s → (process_item item).change = s)) ∧
      ((item.price = none → (process_item item).price = "N/A") ∧
        (∀ s, item.price = some s → (process_item item).price = s)) ∧
      ((item.area = none → (process_item item).area = 100) ∧
        (∀ q, item.area = some q → (process_item item).area = q)) := by
  intro item
  refine ⟨⟨fun h => ?_, fun s h => ?_⟩, ⟨fun h => ?_, fun s h => ?_⟩,
    ⟨fun h => ?_, fun s h => ?_⟩, ⟨fun h => ?_, fun s h => ?_⟩,
    ⟨fun h => ?_, fun q h => ?_⟩⟩ <;> simp [process_item, h]

/-- C2 (witness): on the all-absent record every default is filled in. -/
theorem process_item_defaults_witness :
    (process_item { symbol := none, name := none, change := none,
                    price := none, color := none, area := none }).symbol = "N/A" ∧
    (process_item { symbol := none, name := none, change := none,
                    price := none, color := none, area := none }).name = "N/A" ∧
    (process_item { symbol := none, name := none, change := none,
                    price := none, color := none, area := none }).change = "0%" ∧
    (process_item { symbol := none, name := none, change := none,
                    price := none, color := none, area := none }).price = "N/A" ∧
    (process_item { symbol := none, name := none, change := none,
                    price := none, color := none, area := none }).area = 100 := by
  have t := process_item_defaults
    { symbol := none, name := none, change := none,
      price := none, color := none, area := none }
  exact ⟨t.1.1 rfl, t.2.1.1 rfl, t.2.2.1.1 rfl, t.2.2.2.1.1 rfl, t.2.2.2.2.1 rfl⟩

/-- C8: `save_to_csv` on an empty sequence writes nothing and reports
`"No data to save"` (the `noData` outcome), for any filename. -/
theorem save_to_csv_empty_no_write (filename : String) :
    save_to_csv [] filename = CsvOutcome.noData := rfl

/-- C9: for non-empty data, `generate_html_output` returns the filename
it was given when the write succeeds, and returns `None` (no destination
identifier, no exception: the `except` branch at scraper.py lines
463-464 only logs) when the destination cannot be written. -/
theorem generate_html_output_return_policy (data : List RawRecord) (filename : String)
    (h : data ≠ []) :
    (generate_html_output data filename true).ret = some filename ∧
      (generate_html_output data filename false).ret = none := by
  have hd : data.isEmpty = false := by simpa using h
  simp [generate_html_output, hd]

/-- C9 (witness): a one-record instance of the return policy. -/
theorem generate_html_output_return_policy_witness :
    (generate_html_output
        [{ symbol := none, name := none, change := none,
           price := none, color := none, area := none }] "heatmap_output.html" true).ret
        = some "heatmap_output.html" ∧
      (generate_html_output
        [{ symbol := none, name := none, change := none,
           price := none, color := none, area := none }] "heatmap_output.html" false).ret
        = none :=
  generate_html_output_return_policy
    [{ symbol := none, name := none, change := none,
       price := none, color := none, area := none }] "heatmap_output.html" (by simp)

/-- C10: `generate_html_output` never mutates its input list: every
statement of the body writes only the locally created `processed_data`
object (`= []`, `.append`, in-place `.sort`), so the `data` cell is
unchanged after the call; the `processed_data` cell ends up holding
exactly the normalized, sorted records. -/
theorem generate_html_output_heap_frame :
    ∀ (h : ListHeap) (filename : String) (writeOk : Bool),
      ((generate_html_output_heap h filename writeOk).1).dataCell = h.dataCell ∧
        (¬h.dataCell.isEmpty →
          ((generate_html_output_heap h filename writeOk).1).processedCell
            = process_records h.dataCell) := by
  intro h filename writeOk
  cases hd : h.dataCell.isEmpty
  · simp [generate_html_output_heap, hd, foldl_append_eq_map, process_records]
  · simp [generate_html_output_heap, hd]

/-- C10 (witness): the frame property at a concrete one-record heap. -/
theorem generate_html_output_heap_frame_witness :
    ((generate_html_output_heap
        { dataCell := [{ symbol := none, name := none, change := none,
                         price := none, color := none, area := none }],
          processedCell := [] } "heatmap_output.html" true).1).dataCell
      = [{ symbol := none, name := none, change := none,
           price := none, color := none, area := none }] ∧
    ((generate_html_output_heap
        { dataCell := [{ symbol := none, name := none, change := none,
                         price := none, color := none, area := none }],
          processedCell := [] } "heatmap_output.html" true).1).processedCell
      = process_records
          [{ symbol := none, name := none, change := none,
             price := none, color := none, area := none }] := by
  have t := generate_html_output_heap_frame
    { dataCell := [{ symbol := none, name := none, change := none,
                     price := none, color := none, area := none }],
      processedCell := [] } "heatmap_output.html" true
  exact ⟨t.1, t.2 (by simp)⟩

/- ### Parser lemmas (C3, C4) -/

/-- A decimal digit is not the percent sign. -/
theorem digit_ne_percent (c : Char) (h : c.isDigit) : c ≠ '%' := by
  intro e
  subst e
  exact absurd h (by decide)

/-- `takeDigits` splits a digit run off the front. -/
theorem takeDigits_append (dp rest : List Char)
    (hdp : ∀ c ∈ dp, c.isDigit)
    (hrest : ∀ c, rest.head? = some c → ¬ c.isDigit) :
    takeDigits (dp ++ rest) = (dp, rest) := by
  induction dp with
  | nil =>
    cases rest with
    | nil => rfl
    | cons c rs =>
      have := hrest c rfl
      simp [takeDigits, this]
  | cons c cs ih =>
    have hc : c.isDigit := hdp c (List.mem_cons_self c cs)
    have ih' := ih fun d hd => hdp d (List.mem_cons_of_mem c hd)
    simp [takeDigits, hc, ih']

/-- `\d+\.?\d*` with no fractional part: all-digit input matches whole. -/
theorem matchDigits_nofrac (ip : List Char) (hip : ip ≠ [])
    (hipd : ∀ c ∈ ip, c.isDigit) :
    matchDigits ip = some (ip, []) := by
  have h1 : takeDigits ip = (ip, []) := by
    have := takeDigits_append ip [] hipd (by simp)
    simpa using this
  cases ip with
  | nil => exact absurd rfl hip
  | cons a as =>
    unfold matchDigits
    rw [h1]

/-- `\d+\.?\d*` on `digits.digits` input: matches integer and fraction. -/
theorem matchDigits_frac (ip fp : List Char) (hip : ip ≠ [])
    (hipd : ∀ c ∈ ip, c.isDigit) (hfpd : ∀ c ∈ fp, c.isDigit) :
    matchDigits (ip ++ '.' :: fp) = some (ip, fp) := by
  have h1 : takeDigits (ip ++ '.' :: fp) = (ip, '.' :: fp) := by
    apply takeDigits_append ip _ hipd
    intro c hc
    simp only [List.head?_cons, Option.some.injEq] at hc
    subst hc
    decide
  have h2 : takeDigits fp = (fp, []) := by
    have := takeDigits_append fp [] hfpd (by simp)
    simpa using this
  cases ip with
  | nil => exact absurd rfl hip
  | cons a as =>
    unfold matchDigits
    rw [h1]
    simp [h2]

/-- A match at the head makes `searchNum` stop there (first match wins). -/
theorem searchNum_of_matchNumAt (l : List Char) (m : NumMatch)
    (h : matchNumAt l = some m) : searchNum l = some m := by
  cases l with
  | nil => exact absurd h (by simp [matchNumAt])
  | cons c cs =>
    unfold searchNum
    rw [h]

/-- `matchNumAt` after a `+` sign followed by digits. -/
theorem matchNumAt_plus (cs : List Char) (p : List Char × List Char)
    (h : matchDigits cs = some p) :
    matchNumAt ('+' :: cs) = some ⟨false, p.1, p.2⟩ := by
  unfold matchNumAt
  simp [h]

/-- `matchNumAt` after a `-` sign followed by digits. -/
theorem matchNumAt_minus (cs : List Char) (p : List Char × List Char)
    (h : matchDigits cs = some p) :
    matchNumAt ('-' :: cs) = some ⟨true, p.1, p.2⟩ := by
  unfold matchNumAt
  simp [h]

/-- `matchNumAt` at an unsigned digit. -/
theorem matchNumAt_digit (c : Char) (cs : List Char) (p : List Char × List Char)
    (hc : c.isDigit) (h : matchDigits (c :: cs) = some p) :
    matchNumAt (c :: cs) = some ⟨false, p.1, p.2⟩ := by
  have h1 : c ≠ '+' := by
    intro e
    subst e
    exact absurd hc (by decide)
  have h2 : c ≠ '-' := by
    intro e
    subst e
    exact absurd hc (by decide)
  unfold matchNumAt
  simp [h1, h2, h]

/-- Core shape lemma for the parser: on `sign digits [. digits] %` the
exact encoded rational is returned. -/
theorem parse_core (sgnL : List Char) (neg : Bool)
    (hsgn : (sgnL = [] ∧ neg = false) ∨ (sgnL = ['+'] ∧ neg = false) ∨
      (sgnL = ['-'] ∧ neg = true))
    (ip fp fracL : List Char)
    (hip : ip ≠ []) (hipd : ∀ c ∈ ip, c.isDigit) (hfpd : ∀ c ∈ fp, c.isDigit)
    (hfrac : fracL = '.' :: fp ∨ (fracL = [] ∧ fp = [])) :
    parse_change_value (some ⟨sgnL ++ ip ++ fracL ++ ['%']⟩)
      = (if neg then -1 else 1) *
          ((digitsToNat ip : ℚ) + (digitsToNat fp : ℚ) / 10 ^ fp.length) := by
  have hne : (⟨sgnL ++ ip ++ fracL ++ ['%']⟩ : String) ≠ "" := by
    intro h
    have h2 : sgnL ++ ip ++ fracL ++ ['%'] = ([] : List Char) := congrArg String.data h
    simp at h2
  have hMD : matchDigits (ip ++ fracL) = some (ip, fp) := by
    rcases hfrac with h | ⟨h1, h2⟩
    · subst h
      exact matchDigits_frac ip fp hip hipd hfpd
    · subst h1
      subst h2
      rw [List.append_nil]
      exact matchDigits_nofrac ip hip hipd
  have hdata : (stripPercent ⟨sgnL ++ ip ++ fracL ++ ['%']⟩).data
      = sgnL ++ ip ++ fracL := by
    show (sgnL ++ ip ++ fracL ++ ['%']).filter (fun c => decide (c ≠ '%'))
        = sgnL ++ ip ++ fracL
    rw [List.filter_append, List.filter_append, List.filter_append]
    have e1 : sgnL.filter (fun c => decide (c ≠ '%')) = sgnL := by
      rcases hsgn with ⟨h1, _⟩ | ⟨h1, _⟩ | ⟨h1, _⟩ <;> subst h1 <;> decide
    have e2 : ip.filter (fun c => decide (c ≠ '%')) = ip :=
      List.filter_eq_self.mpr fun c hc => decide_eq_true (digit_ne_percent c (hipd c hc))
    have e3 : fracL.filter (fun c => decide (c ≠ '%')) = fracL := by
      rcases hfrac with h | ⟨h1, _⟩
      · subst h
        apply List.filter_eq_self.mpr
        intro c hc
        rcases List.mem_cons.mp hc with h | h
        · subst h
          decide
        · exact decide_eq_true (digit_ne_percent c (hfpd c h))
      · subst h1
        rfl
    have e4 : (['%'] : List Char).filter (fun c => decide (c ≠ '%')) = [] := by decide
    rw [e1, e2, e3, e4, List.append_nil]
  have hSN : searchNum (sgnL ++ ip ++ fracL) = some ⟨neg, ip, fp⟩ := by
    rcases hsgn with ⟨h1, h2⟩ | ⟨h1, h2⟩ | ⟨h1, h2⟩ <;> subst h1 <;> subst h2
    · cases ip with
      | nil => exact absurd rfl hip
      | cons a as =>
        have ha : a.isDigit := hipd a (List.mem_cons_self a as)
        have hMD' : matchDigits (a :: (as ++ fracL)) = some (a :: as, fp) := by
          simpa using hMD
        have hm := matchNumAt_digit a (as ++ fracL) (a :: as, fp) ha hMD'
        have := searchNum_of_matchNumAt (a :: (as ++ fracL)) ⟨false, a :: as, fp⟩ hm
        simpa using this
    · have hm := matchNumAt_plus (ip ++ fracL) (ip, fp) hMD
      have := searchNum_of_matchNumAt ('+' :: (ip ++ fracL)) ⟨false, ip, fp⟩ hm
      simpa [List.append_assoc] using this
    · have hm := matchNumAt_minus (ip ++ fracL) (ip, fp) hMD
      have := searchNum_of_matchNumAt ('-' :: (ip ++ fracL)) ⟨true, ip, fp⟩ hm
      simpa [List.append_assoc] using this
  simp only [parse_change_value]
  rw [if_neg hne, hdata, hSN]
  rfl

/-- C3: on every input of the shape optional sign, digits, optional
`.digits`, then a percent marker, `parse_change_value` returns exactly
the signed decimal value encoded (numbers modelled as exact rationals);
the concrete conjuncts check the spec's examples and that a first match
wins over later numeric content. -/
theorem parse_change_value_exact :
    (∀ (sgn : Option Char), (sgn = none ∨ sgn = some '+' ∨ sgn = some '-') →
      ∀ (ip fp : List Char) (hasFrac : Bool), ip ≠ [] →
        (∀ c ∈ ip, c.isDigit) → (∀ c ∈ fp, c.isDigit) →
        parse_change_value (some ⟨(sgn.elim [] fun c => [c]) ++ ip ++
            (if hasFrac then '.' :: fp else []) ++ ['%']⟩)
          = (if sgn = some '-' then -1 else 1) *
              ((digitsToNat ip : ℚ) +
                if hasFrac then (digitsToNat fp : ℚ) / 10 ^ fp.length else 0)) ∧
    parse_change_value (some "+2.45%") = 2.45 ∧
    parse_change_value (some "-1.23%") = -1.23 ∧
    parse_change_value (some "0%") = 0 ∧
    parse_change_value (some "2.45% and 9.99%") = 2.45 := by
  refine ⟨?_, ?_, ?_, ?_, ?_⟩
  · intro sgn hs ip fp hasFrac hip hipd hfpd
    rcases hs with h | h | h
    · subst h
      cases hasFrac with
      | false =>
        have hc := parse_core [] false (Or.inl ⟨rfl, rfl⟩) ip [] []
          hip hipd (by simp) (Or.inr ⟨rfl, rfl⟩)
        simpa [digitsToNat] using hc
      | true =>
        have hc := parse_core [] false (Or.inl ⟨rfl, rfl⟩) ip fp ('.' :: fp)
          hip hipd hfpd (Or.inl rfl)
        simpa using hc
    · subst h
      cases hasFrac with
      | false =>
        have hc := parse_core ['+'] false (Or.inr (Or.inl ⟨rfl, rfl⟩)) ip [] []
          hip hipd (by simp) (Or.inr ⟨rfl, rfl⟩)
        simpa [digitsToNat] using hc
      | true =>
        have hc := parse_core ['+'] false (Or.inr (Or.inl ⟨rfl, rfl⟩)) ip fp ('.' :: fp)
          hip hipd hfpd (Or.inl rfl)
        simpa using hc
    · subst h
      cases hasFrac with
      | false =>
        have hc := parse_core ['-'] true (Or.inr (Or.inr ⟨rfl, rfl⟩)) ip [] []
          hip hipd (by simp) (Or.inr ⟨rfl, rfl⟩)
        simpa [digitsToNat] using hc
      | true =>
        have hc := parse_core ['-'] true (Or.inr (Or.inr ⟨rfl, rfl⟩)) ip fp ('.' :: fp)
          hip hipd hfpd (Or.inl rfl)
        simpa using hc
  · simp [parse_change_value, stripPercent, searchNum, matchNumAt, matchDigits,
      takeDigits, digitsToNat, numValue]
    norm_num
  · simp [parse_change_value, stripPercent, searchNum, matchNumAt, matchDigits,
      takeDigits, digitsToNat, numValue]
    norm_num
  · simp [parse_change_value, stripPercent, searchNum, matchNumAt, matchDigits,
      takeDigits, digitsToNat, numValue]
  · simp [parse_change_value, stripPercent, searchNum, matchNumAt, matchDigits,
      takeDigits, digitsToNat, numValue]
    norm_num

/-- C3 (witness): the shape theorem applied at `"+2.45%"`. -/
theorem parse_change_value_exact_witness :
    parse_change_value (some ⟨['+', '2', '.', '4', '5', '%']⟩)
      = (1 : ℚ) * ((digitsToNat ['2'] : ℚ) +
          (digitsToNat ['4', '5'] : ℚ) / 10 ^ (['4', '5'] : List Char).length) := by
  simpa using parse_change_value_exact.1 (some '+') (Or.inr (Or.inl rfl))
    ['2'] ['4', '5'] true (by decide) (by decide) (by decide)

/-- `matchDigits` fails when the head is not a digit. -/
theorem matchDigits_none (l : List Char)
    (h : ∀ c, l.head? = some c → ¬ c.isDigit) :
    matchDigits l = none := by
  cases l with
  | nil => rfl
  | cons c cs =>
    have hc : ¬ c.isDigit := h c rfl
    simp [matchDigits, takeDigits, hc]

/-- `matchNumAt` fails on digit-free input. -/
theorem matchNumAt_none (l : List Char) (h : ∀ c ∈ l, ¬ c.isDigit) :
    matchNumAt l = none := by
  cases l with
  | nil => rfl
  | cons c cs =>
    have hcs : ∀ d, cs.head? = some d → ¬ d.isDigit := by
      intro d hd
      exact h d (List.mem_cons_of_mem c (List.mem_of_mem_head? (Option.mem_def.mpr hd)))
    have hc : ∀ d, (c :: cs).head? = some d → ¬ d.isDigit := by
      intro d hd
      exact h d (List.mem_of_mem_head? (Option.mem_def.mpr hd))
    unfold matchNumAt
    by_cases h1 : c = '+'
    · simp [h1, matchDigits_none cs hcs]
    · by_cases h2 : c = '-'
      · simp [h1, h2, matchDigits_none cs hcs]
      · simp [h1, h2, matchDigits_none (c :: cs) hc]

/-- `searchNum` fails on digit-free input. -/
theorem searchNum_none (l : List Char) (h : ∀ c ∈ l, ¬ c.isDigit) :
    searchNum l = none := by
  induction l with
  | nil => rfl
  | cons c cs ih =>
    unfold searchNum
    rw [matchNumAt_none (c :: cs) h]
    exact ih fun d hd => h d (List.mem_cons_of_mem c hd)

/-- C4: `parse_change_value` returns 0 without raising on `None`, on the
empty string, and on every string containing no digit at all (hence no
parseable numeric substring), e.g. `"N/A"`. -/
theorem parse_change_value_degrades :
    parse_change_value none = 0 ∧
    parse_change_value (some "") = 0 ∧
    (∀ s : String, (∀ c ∈ s.data, ¬ c.isDigit) → parse_change_value (some s) = 0) := by
  refine ⟨rfl, rfl, fun s hs => ?_⟩
  by_cases he : s = ""
  · simp [parse_change_value, he]
  · have hnone : searchNum (stripPercent s).data = none := by
      apply searchNum_none
      intro c hc
      have hc' : c ∈ s.data.filter (fun c => decide (c ≠ '%')) := hc
      exact hs c (List.mem_filter.mp hc').1
    simp [parse_change_value, he, hnone]

/-- C4 (witness): the degradation theorem applied at `"N/A"`. -/
theorem parse_change_value_degrades_witness :
    parse_change_value (some "N/A") = 0 :=
  parse_change_value_degrades.2.2 "N/A" (by decide)

/- ### C5: color policy -/

/-- C5: positive change values get the green family and tag `positive`,
negative ones the red family and `negative`, zero the fixed gray at
opacity 0.3 and `neutral`; the opacity always equals
`0.3 + min(|value| * 10, 100) / 200`, is monotone non-decreasing in the
magnitude, and is constant once the magnitude reaches the clamp point 10. -/
theorem get_color_from_change_policy :
    (∀ v : ℚ, 0 < v →
      (get_color_from_change v).1 = (34, 197, 94) ∧ change_class v = "positive") ∧
    (∀ v : ℚ, v < 0 →
      (get_color_from_change v).1 = (239, 68, 68) ∧ change_class v = "negative") ∧
    (get_color_from_change 0 = ((156, 163, 175), 3/10) ∧ change_class 0 = "neutral") ∧
    (∀ v : ℚ, (get_color_from_change v).2 = 3/10 + min (|v| * 10) 100 / 200) ∧
    (∀ a b : ℚ, |a| ≤ |b| →
      (get_color_from_change a).2 ≤ (get_color_from_change b).2) ∧
    (∀ a b : ℚ, 10 ≤ |a| → 10 ≤ |b| →
      (get_color_from_change a).2 = (get_color_from_change b).2) := by
  have hformula : ∀ v : ℚ,
      (get_color_from_change v).2 = 3/10 + min (|v| * 10) 100 / 200 := by
    intro v
    rcases lt_trichotomy v 0 with h | h | h
    · simp [get_color_from_change, h, h.not_lt]
    · subst h
      simp [get_color_from_change]
    · simp [get_color_from_change, h]
  refine ⟨fun v h => ?_, fun v h => ?_, ⟨?_, ?_⟩, hformula, fun a b hab => ?_, fun a b ha hb => ?_⟩
  · simp [get_color_from_change, change_class, h]
  · simp [get_color_from_change, change_class, h, h.not_lt]
  · simp [get_color_from_change]
  · simp [change_class]
  · rw [hformula a, hformula b]
    have hmin : min (|a| * 10) 100 ≤ min (|b| * 10) 100 :=
      min_le_min (by nlinarith [abs_nonneg a, abs_nonneg b]) le_rfl
    linarith
  · rw [hformula a, hformula b]
    have hca : min (|a| * 10) 100 = 100 := min_eq_right (by linarith)
    have hcb : min (|b| * 10) 100 = 100 := min_eq_right (by linarith)
    rw [hca, hcb]

/-- C5 (witness): the color policy at the concrete values 5, -5, 0, 12
and 20. -/
theorem get_color_from_change_policy_witness :
    ((get_color_from_change 5).1 = (34, 197, 94) ∧ change_class 5 = "positive") ∧
    ((get_color_from_change (-5)).1 = (239, 68, 68) ∧ change_class (-5) = "negative") ∧
    (get_color_from_change (-3)).2 ≤ (get_color_from_change 5).2 ∧
    (get_color_from_change 12).2 = (get_color_from_change 20).2 := by
  refine ⟨?_, ?_, ?_, ?_⟩
  · exact get_color_from_change_policy.1 5 (by norm_num)
  · exact get_color_from_change_policy.2.1 (-5) (by norm_num)
  · exact get_color_from_change_policy.2.2.2.2.1 (-3) 5 (by norm_num)
  · exact get_color_from_change_policy.2.2.2.2.2 12 20 (by norm_num) (by norm_num)

/- ### C6: normalizer length, order, stability; C7: counts -/

/-- Stability of the descending area sort: for each area value, the
records having it appear in the output in their input order. -/
theorem process_records_stable (data : List RawRecord) (q : ℚ) :
    (process_records data).filter (fun r => decide (r.area = q))
      = (data.map process_item).filter (fun r => decide (r.area = q)) := by
  set l := data.map process_item with hl
  set p : ProcessedRecord → Bool := fun r => decide (r.area = q) with hp
  have hall : ∀ r ∈ l.filter p, p r = true := fun r hr => (List.mem_filter.mp hr).2
  have hpair : (l.filter p).Pairwise (fun a b => areaDescLe a b = true) := by
    apply List.pairwise_of_forall_mem_list
    intro a ha b hb
    have ha' : a.area = q := by simpa [hp] using hall a ha
    have hb' : b.area = q := by simpa [hp] using hall b hb
    simp [areaDescLe, ha', hb']
  have hsub : List.Sublist (l.filter p) ((l.mergeSort areaDescLe).filter p) := by
    have h1 : List.Sublist (l.filter p) (l.mergeSort areaDescLe) :=
      List.sublist_mergeSort areaDescLe_trans areaDescLe_total hpair (List.filter_sublist l)
    have h2 := h1.filter p
    rwa [List.filter_filter, show ((fun r => p r && p r) : ProcessedRecord → Bool) = p
      from funext fun r => Bool.and_self (p r)] at h2
  have hlen : ((l.mergeSort areaDescLe).filter p).length = (l.filter p).length :=
    ((List.mergeSort_perm l areaDescLe).filter p).length_eq
  exact (hsub.eq_of_length hlen.symm).symm

/-- C6: the normalizer keeps the input length, sorts by `area`
descending, is stable (per area value, input order is preserved), and a
record with no `change` key gets `change_value = 0` and the `neutral`
classification. -/
theorem process_records_spec :
    (∀ data : List RawRecord, (process_records data).length = data.length) ∧
    (∀ data : List RawRecord,
      (process_records data).Pairwise (fun a b => b.area ≤ a.area)) ∧
    (∀ (data : List RawRecord) (q : ℚ),
      (process_records data).filter (fun r => decide (r.area = q))
        = (data.map process_item).filter (fun r => decide (r.area = q))) ∧
    (∀ item : RawRecord, item.change = none →
      (process_item item).change_value = 0 ∧
        change_class (process_item item).change_value = "neutral") := by
  refine ⟨fun data => ?_, fun data => ?_, process_records_stable, fun item h => ?_⟩
  · simp [process_records]
  · have hs := @List.sorted_mergeSort ProcessedRecord areaDescLe
      areaDescLe_trans areaDescLe_total (data.map process_item)
    exact hs.imp fun hab => by simpa [areaDescLe] using hab
  · have hv : (process_item item).change_value = 0 := by
      have : (process_item item).change_value = parse_change_value (some "0%") := by
        simp [process_item, h]
      rw [this]
      exact parse_change_value_exact.2.2.2.1
    exact ⟨hv, by simp [hv, change_class]⟩

/-- C6 (witness): a record with no `change` key is parsed to 0 and
classified `neutral`. -/
theorem process_records_spec_witness :
    (process_item { symbol := some "AAA", name := some "Alpha", change := none, price := some "1.0", color := some "", area := some 500 }).change_value = 0 ∧
      change_class (process_item { symbol := some "AAA", name := some "Alpha", change := none, price := some "1.0", color := some "", area := some 500 }).change_value = "neutral" :=
  process_records_spec.2.2.2
    { symbol := some "AAA", name := some "Alpha", change := none, price := some "1.0", color := some "", area := some 500 } rfl

/-- Sign trichotomy of the three comprehension counts. -/
theorem countP_sign_partition (l : List ProcessedRecord) :
    l.countP (fun x => decide (x.change_value > 0)) +
      l.countP (fun x => decide (x.change_value < 0)) +
      l.countP (fun x => decide (x.change_value = 0)) = l.length := by
  induction l with
  | nil => rfl
  | cons a t ih =>
    simp only [List.countP_cons, List.length_cons]
    rcases lt_trichotomy a.change_value 0 with h | h | h
    · simp only [decide_eq_true_eq, h, h.not_lt, h.ne, if_true, if_false]
      omega
    · simp only [decide_eq_true_eq, h, lt_irrefl, eq_self_iff_true, if_true, if_false]
      omega
    · simp only [decide_eq_true_eq, h, h.not_lt, h.ne', if_true, if_false]
      omega

/-- C7: in the rendered document the gainers, losers and unchanged
counts always sum to the total count, for every input sequence. -/
theorem build_doc_counts_partition (data : List RawRecord) :
    (build_doc data).gainers + (build_doc data).losers + (build_doc data).unchanged
      = (build_doc data).total := by
  simp only [build_doc]
  exact countP_sign_partition (process_records data)
